import Mathlib

/-!
Verification of the Rolodex repository's two core algorithms against its
natural-language specification: the heuristic business-card field extractor
(`heuristic_parse` in `rolodex.py`) and the merge / conflict-resolution
engine described in the spec.  The extractor is shallowly embedded from the
source, including faithful models of the four Python regular expressions
(backtracking, leftmost-match, greedy semantics).  The merge engine does not
appear in the source tree, so it is modelled from the spec's words.
-/

namespace Rolodex

/-- A line of text, as a list of characters. -/
abbrev Line := List Char

/-- Python `str.isspace` over the whitespace characters Python's `strip`,
`split` and the regex class match on ASCII text. -/
def pyIsSpace (c : Char) : Bool :=
  c = ' ' || c = '\t' || c = '\n' || c = '\x0d' || c = '\x0b' || c = '\x0c'

/-- Python regex word character on ASCII text: letters, digits, underscore. -/
def isWordChar (c : Char) : Bool :=
  c.isAlpha || c.isDigit || c = '_'

/-- Python `str.strip()` : drop leading and trailing whitespace. -/
def pyStrip (l : Line) : Line :=
  ((l.dropWhile pyIsSpace).reverse.dropWhile pyIsSpace).reverse

/-- Python `text.split(chr(10))` : split on each newline character. -/
def splitOnNl : Line → List Line
  | [] => [[]]
  | c :: cs =>
    let r := splitOnNl cs
    if c = '\n' then [] :: r
    else
      match r with
      | h :: t => (c :: h) :: t
      | [] => [[c]]

/-- Helper for `pySplit`: accumulate the current word (reversed). -/
def pySplitAux : Line → Line → List Line
  | [], acc => if acc.isEmpty then [] else [acc.reverse]
  | c :: cs, acc =>
    if pyIsSpace c then
      if acc.isEmpty then pySplitAux cs [] else acc.reverse :: pySplitAux cs []
    else pySplitAux cs (c :: acc)

/-- Python `str.split()` with no argument: words separated by whitespace runs. -/
def pySplit (l : Line) : List Line :=
  pySplitAux l []

/-- Python `str.lower()` on ASCII text. -/
def lowerL (l : Line) : Line :=
  l.map Char.toLower

/-- Python `str.capitalize()` on ASCII text: first character upper-cased,
the rest lower-cased. -/
def pyCapitalize (l : Line) : Line :=
  match l.map Char.toLower with
  | [] => []
  | c :: cs => c.toUpper :: cs

/-- Does `needle` occur as a contiguous substring of `hay` (Python `in`)? -/
def isSubstr (needle hay : Line) : Bool :=
  (List.range (hay.length + 1)).any (fun i => needle.isPrefixOf (hay.drop i))

/-- `List.enum` beginning at `n` (Python `enumerate`). -/
def enumL : Nat → List α → List (Nat × α)
  | _, [] => []
  | n, a :: as => (n, a) :: enumL (n + 1) as

/-- The substring `s[a:b]` of a character list. -/
def slice (s : Line) (a b : Nat) : Line :=
  (s.drop a).take (b - a)

/-! ## A backtracking regular-expression engine

Faithful to CPython `re` semantics for the constructs the source's four
patterns use: character classes, concatenation, prioritised alternation,
greedy star / plus / option, bounded repetition, capturing groups and the
word-boundary assertion.  `runRE` returns every way the expression can match
starting at a position, in backtracking priority order, so the head of the
list is the match Python reports. -/

/-- Capture records `(group, start, stop)`; the most recent capture of a
group appears first. -/
abbrev Caps := List (Nat × Nat × Nat)

/-- Regular-expression abstract syntax. -/
inductive RE where
  | eps : RE
  | cls : (Char → Bool) → RE
  | seq : RE → RE → RE
  | alt : RE → RE → RE
  | star : RE → RE
  | group : Nat → RE → RE
  | wb : RE

/-- Is position `i` of `s` a `\b` word boundary? -/
def wordBoundary (s : Line) (i : Nat) : Bool :=
  let before := match s.get? (i - 1) with
    | some c => if i = 0 then false else isWordChar c
    | none => false
  let after := match s.get? i with
    | some c => isWordChar c
    | none => false
  before != after

/-- Greedy iteration of one matching step `f`, fuelled; longer iterations are
tried first and each iteration must consume at least one character, matching
CPython's treatment of repeated empty matches. -/
def starRun (f : Nat → List (Nat × Caps)) : Nat → Nat → List (Nat × Caps)
  | 0, i => [(i, [])]
  | n + 1, i =>
    ((f i).flatMap (fun x =>
      if i < x.1 then
        (starRun f n x.1).map (fun y => (y.1, y.2 ++ x.2))
      else [])) ++ [(i, [])]

/-- All matches of `r` in `s` starting at position `i`, as pairs of an end
position and captures, in backtracking priority order. -/
def runRE (s : Line) : RE → Nat → List (Nat × Caps)
  | .eps, i => [(i, [])]
  | .cls p, i =>
    match s.get? i with
    | some c => if p c then [(i + 1, [])] else []
    | none => []
  | .seq a b, i =>
    (runRE s a i).flatMap (fun x =>
      (runRE s b x.1).map (fun y => (y.1, y.2 ++ x.2)))
  | .alt a b, i => runRE s a i ++ runRE s b i
  | .star a, i => starRun (runRE s a) (s.length + 1) i
  | .group n a, i => (runRE s a i).map (fun x => (x.1, (n, i, x.1) :: x.2))
  | .wb, i => if wordBoundary s i then [(i, [])] else []

/-- Leftmost search from position `i` (fuelled over start positions):
the first start position with a non-empty match list, together with the
highest-priority match there.  CPython `re.search` semantics. -/
def reSearchAux (r : RE) (s : Line) : Nat → Nat → Option (Nat × Nat × Caps)
  | 0, _ => none
  | f + 1, i =>
    if i > s.length then none
    else
      match runRE s r i with
      | (e, c) :: _ => some (i, e, c)
      | [] => reSearchAux r s f (i + 1)

/-- CPython `re.search`: leftmost match of `r` in `s`. -/
def reSearch (r : RE) (s : Line) : Option (Nat × Nat × Caps) :=
  reSearchAux r s (s.length + 1) 0

/-- CPython `re.finditer`: successive non-overlapping leftmost matches,
returned as `(start, stop)` spans. -/
def reFinditerAux (r : RE) (s : Line) : Nat → Nat → List (Nat × Nat)
  | 0, _ => []
  | f + 1, i =>
    match reSearchAux r s (s.length + 1) i with
    | none => []
    | some (st, en, _) => (st, en) :: reFinditerAux r s f (max (st + 1) en)

/-- All `(start, stop)` match spans of `r` in `s`. -/
def reFinditer (r : RE) (s : Line) : List (Nat × Nat) :=
  reFinditerAux r s (s.length + 1) 0

/-- CPython `re.findall` for a pattern with no capturing groups: the list of
full-match substrings. -/
def reFindall (r : RE) (s : Line) : List Line :=
  (reFinditer r s).map (fun m => slice s m.1 m.2)

/-- The text captured by group `n`, if any (most recent capture wins). -/
def capGroup (s : Line) (c : Caps) (n : Nat) : Option Line :=
  match c.find? (fun e => e.1 = n) with
  | some e => some (slice s e.2.1 e.2.2)
  | none => none

/-! ### Pattern-building helpers -/

/-- A single literal character. -/
def chC (c : Char) : RE :=
  .cls (fun d => d = c)

/-- Any character of the given string. -/
def oneOf (cs : String) : RE :=
  .cls (fun d => cs.data.contains d)

/-- A character in the inclusive range `[a, b]`. -/
def rng (a b : Char) : RE :=
  .cls (fun d => a ≤ d && d ≤ b)

/-- Sequence of a list of expressions. -/
def seqL : List RE → RE
  | [] => .eps
  | [r] => r
  | r :: rs => .seq r (seqL rs)

/-- Prioritised alternation of a list of expressions. -/
def altL : List RE → RE
  | [] => .eps
  | [r] => r
  | r :: rs => .alt r (altL rs)

/-- Greedy `r?`. -/
def optRE (r : RE) : RE :=
  .alt r .eps

/-- Greedy `r+`. -/
def plusRE (r : RE) : RE :=
  .seq r (.star r)

/-- Exactly `n` copies of `r`. -/
def repRE : Nat → RE → RE
  | 0, _ => .eps
  | n + 1, r => .seq r (repRE n r)

/-- At least `n` copies of `r`, greedy. -/
def atLeastRE (n : Nat) (r : RE) : RE :=
  .seq (repRE n r) (.star r)

/-- The regex class `[\w.-]`. -/
def wdDotDash : RE :=
  .cls (fun c => isWordChar c || c = '.' || c = '-')

/-- The regex class `\d`. -/
def digitRE : RE :=
  .cls Char.isDigit

/-- The regex class `\s`. -/
def spaceRE : RE :=
  .cls pyIsSpace

/-- A literal string. -/
def strRE (s : String) : RE :=
  seqL (s.data.map chC)

/-! ### The four patterns of `rolodex.py`, transcribed -/

/-- `email_re`: the pattern `[\w.-]+@[\w.-]+\.\w+` (a dot inside a class is
literal). -/
def emailRE : RE :=
  seqL [plusRE wdDotDash, chC '@', plusRE wdDotDash, chC '.',
        plusRE (.cls isWordChar)]

/-- The class `[02-9]`. -/
def cls029 : RE :=
  .cls (fun c => c = '0' || ('2' ≤ c && c ≤ '9'))

/-- The class `[02-8]`. -/
def cls028 : RE :=
  .cls (fun c => c = '0' || ('2' ≤ c && c ≤ '8'))

/-- NANP area-code alternation `[2-9]1[02-9]|[2-9][02-8]1|[2-9][02-8][02-9]`. -/
def areaRE : RE :=
  altL [seqL [rng '2' '9', chC '1', cls029],
        seqL [rng '2' '9', cls028, chC '1'],
        seqL [rng '2' '9', cls028, cls029]]

/-- NANP exchange alternation `[2-9]1[02-9]|[2-9][02-9]1|[2-9][02-9]{2}`. -/
def exchRE : RE :=
  altL [seqL [rng '2' '9', chC '1', cls029],
        seqL [rng '2' '9', cls029, chC '1'],
        seqL [rng '2' '9', cls029, cls029]]

/-- The separator `(?:[.-]\s*)?`. -/
def sepRE : RE :=
  optRE (.seq (oneOf ".-") (.star spaceRE))

/-- `phone_re`: the North-American phone pattern of the source, with the
optional `+1` country code, parenthesised or bare area code, exchange,
four-digit subscriber number and optional extension suffix. -/
def phoneRE : RE :=
  seqL [optRE (seqL
          [optRE (seqL [optRE (chC '+'), chC '1', .star spaceRE, sepRE]),
           .alt (seqL [chC '(', .star spaceRE, areaRE, .star spaceRE, chC ')'])
                areaRE,
           .star spaceRE, sepRE]),
        exchRE, .star spaceRE, sepRE, repRE 4 (rng '0' '9'),
        optRE (seqL [.star spaceRE,
                     altL [chC '#',
                           .seq (chC 'x') (optRE (chC '.')),
                           .seq (strRE "ext") (optRE (chC '.')),
                           strRE "extension"],
                     .star spaceRE, plusRE digitRE])]

/-- `url_re`: `(https?://)?(www\.)?([a-zA-Z0-9-]+)(\.[a-zA-Z]{2,})+`; only
group 3 (the domain label) is consulted by the source, so it is the only
group marked. -/
def urlRE : RE :=
  seqL [optRE (.seq (strRE "http") (.seq (optRE (chC 's')) (strRE "://"))),
        optRE (strRE "www."),
        .group 3 (plusRE (.cls (fun c => c.isAlpha || c.isDigit || c = '-'))),
        plusRE (.seq (chC '.') (atLeastRE 2 (.cls Char.isAlpha)))]

/-- `zip_re`: `\b\d{5}(?:-\d{4})?\b`. -/
def zipRE : RE :=
  seqL [.wb, repRE 5 digitRE, optRE (.seq (chC '-') (repRE 4 digitRE)), .wb]

/-! ## The extractor's data record

`heuristic_parse` receives a dict with the `CSV_HEADERS` keys; embedded as a
structure with one field per key it reads or writes. -/

/-- The contact record threaded through `heuristic_parse` (the dict built in
`add_from_file` over `CSV_HEADERS`). -/
structure ContactData where
  id : String
  firstName : String
  lastName : String
  company : String
  jobTitle : String
  emailAddress : String
  mobilePhone : String
  businessPhone : String
  address : String
  imageData : List (String × String)
  notesData : List (String × String)
deriving DecidableEq, Repr

/-- The all-empty record (`{k: "" for k in CSV_HEADERS}` with empty
image/notes lists). -/
def emptyContact : ContactData :=
  ⟨"", "", "", "", "", "", "", "", "", [], []⟩

/-- `List Char` back to `String`. -/
def strOf (l : Line) : String :=
  String.mk l

/-- Python `str.strip()` on a `String` (kernel-evaluable, unlike
`String.trim`). -/
def pyStripS (s : String) : String :=
  strOf (pyStrip s.data)

/-- The non-blank stripped lines of the input text. -/
def linesOf (text : String) : List Line :=
  ((splitOnNl text.data).map pyStrip).filter (fun l => !l.isEmpty)

/-! ## The seven passes of `heuristic_parse` -/

/-- Pass 1 (`EXTRACT EMAILS`): each unused line with an `email_re` match has
its first match written to the e-mail field (later lines overwrite) and is
marked used. -/
def emailPass : List (Nat × Line) → ContactData → List Nat →
    ContactData × List Nat
  | [], d, u => (d, u)
  | (i, l) :: rest, d, u =>
    if i ∈ u then emailPass rest d u
    else
      match reFindall emailRE l with
      | [] => emailPass rest d u
      | e :: _ => emailPass rest { d with emailAddress := strOf e } (i :: u)

/-- Phone-context classification. -/
inductive PType where
  | mobile : PType
  | business : PType
  | fax : PType
  | unknown : PType
deriving DecidableEq, Repr

/-- Does the (lower-cased) context contain any of the given tokens as a
substring? -/
def containsAnyStr (ctx : Line) (ts : List String) : Bool :=
  ts.any (fun t => isSubstr t.data ctx)

/-- The prefix-context decision table of the phone pass. -/
def classifyPhone (ctx : Line) : PType :=
  if containsAnyStr ctx ["m:", "mob", "cell", "c:"] then .mobile
  else if containsAnyStr ctx ["o:", "off", "t:", "tel", "d:", "dir", "ph"] then
    .business
  else if containsAnyStr ctx ["f:", "fax"] then .fax
  else .unknown

/-- The non-fax `phone_re` matches of one line, classified by the
lower-cased text before each match and stripped. -/
def keptPhones (l : Line) : List (PType × String) :=
  (reFinditer phoneRE l).filterMap (fun m =>
    let ptype := classifyPhone (lowerL (l.take m.1))
    if ptype = PType.fax then none
    else some (ptype, strOf (pyStrip (slice l m.1 m.2))))

/-- Pass 2 collection (`EXTRACT PHONES`): scan every line (used or not) with
`phone_re`; classify each match by the lower-cased text before it; keep
non-fax matches (stripped) and mark their lines used. -/
def phoneScan : List (Nat × Line) → List (PType × String) → List Nat →
    List (PType × String) × List Nat
  | [], found, u => (found, u)
  | (i, l) :: rest, found, u =>
    if (keptPhones l).isEmpty then phoneScan rest found u
    else phoneScan rest (found ++ keptPhones l) (i :: u)

/-- One step of the typed-number distribution loop of pass 2. -/
def phoneFoldStep (acc : ContactData) (p : PType × String) : ContactData :=
  match p.1 with
  | .mobile => { acc with mobilePhone := p.2 }
  | .business => { acc with businessPhone := p.2 }
  | _ => acc

/-- Pass 2 assignment: a sole number always goes to the mobile field;
otherwise typed numbers fill their fields (last wins) and the first
unknown-context number backfills mobile, else business, if still empty. -/
def assignPhones (found : List (PType × String)) (d : ContactData) :
    ContactData :=
  match found with
  | [p] => { d with mobilePhone := p.2 }
  | _ =>
    let d1 := found.foldl phoneFoldStep d
    let unknowns := (found.filter (fun p => p.1 = PType.unknown)).map
      (fun p => p.2)
    match unknowns with
    | [] => d1
    | v :: _ =>
      if d1.mobilePhone = "" then { d1 with mobilePhone := v }
      else if d1.businessPhone = "" then { d1 with businessPhone := v }
      else d1

/-- Pass 3 (`EXTRACT URL / WEBSITE`): each unused line with a `url_re` match
overwrites the remembered capitalised domain label and is marked used. -/
def urlPass : List (Nat × Line) → String → List Nat → String × List Nat
  | [], w, u => (w, u)
  | (i, l) :: rest, w, u =>
    if i ∈ u then urlPass rest w u
    else
      match reSearch urlRE l with
      | none => urlPass rest w u
      | some m =>
        let dom := match capGroup l m.2.2 3 with
          | some g => strOf (pyCapitalize g)
          | none => ""
        urlPass rest dom (i :: u)

/-- The address keyword list. -/
def addrKeywords : List String :=
  ["st", "street", "ave", "avenue", "rd", "road", "blvd", "boulevard",
   "dr", "drive", "lane", "suite", "floor", "box", "po box", "plaza",
   "circle"]

/-- Does the previous line qualify as a street line: any digit, or an
address keyword among its lower-cased whitespace tokens? -/
def addrQualPrev (prev : Line) : Bool :=
  prev.any Char.isDigit ||
    addrKeywords.any (fun k => (pySplit (lowerL prev)).contains k.data)

/-- Method B of the address pass: an address keyword among the line's
lower-cased tokens, and at least one digit on the line. -/
def addrKwHit (l : Line) : Bool :=
  addrKeywords.any (fun k => (pySplit (lowerL l)).contains k.data) &&
    l.any Char.isDigit

/-- Pass 4 (`EXTRACT ADDRESS`): on each unused line, first a `zip_re` search
(on success take the line, optionally prefixed by a qualifying unused
previous line, and stop), else the keyword+digit check (on success take the
line alone and stop). -/
def addrPass (lines : List Line) : List (Nat × Line) → List Nat →
    List Line × List Nat
  | [], u => ([], u)
  | (i, l) :: rest, u =>
    if i ∈ u then addrPass lines rest u
    else if (reSearch zipRE l).isSome then
      if 0 < i ∧ (i - 1) ∉ u ∧
          addrQualPrev (lines.getD (i - 1) []) = true then
        ([lines.getD (i - 1) [], l], (i - 1) :: i :: u)
      else ([l], i :: u)
    else if addrKwHit l then ([l], i :: u)
    else addrPass lines rest u

/-- The job-title keyword list. -/
def titleKeywords : List String :=
  ["manager", "director", "president", "vp", "ceo", "cfo", "cto", "chief",
   "engineer", "developer", "consultant", "specialist", "coordinator",
   "administrator", "assistant", "associate", "founder", "owner", "partner",
   "lead", "head"]

/-- Pass 5 (`EXTRACT JOB TITLE`): first unused line containing a title
keyword as a substring and having fewer than 7 whitespace tokens. -/
def titlePass : List (Nat × Line) → ContactData → List Nat →
    ContactData × List Nat
  | [], d, u => (d, u)
  | (i, l) :: rest, d, u =>
    if i ∈ u then titlePass rest d u
    else if titleKeywords.any (fun t => isSubstr t.data (lowerL l)) then
      if (pySplit l).length < 7 then ({ d with jobTitle := strOf l }, i :: u)
      else titlePass rest d u
    else titlePass rest d u

/-- The company-suffix keyword list. -/
def companySuffixes : List String :=
  ["inc", "llc", "ltd", "corp", "corporation", "group", "holdings",
   "solutions", "systems", "services", "technologies", "company", "co."]

/-- Pass 6 (`EXTRACT COMPANY`): first unused line with a company suffix
among its lower-cased whitespace tokens. -/
def companyPass : List (Nat × Line) → ContactData → List Nat →
    ContactData × List Nat
  | [], d, u => (d, u)
  | (i, l) :: rest, d, u =>
    if i ∈ u then companyPass rest d u
    else if companySuffixes.any (fun s => (pySplit (lowerL l)).contains s.data)
        then ({ d with company := strOf l }, i :: u)
    else companyPass rest d u

/-- Pass 7 (`EXTRACT NAME`): first unused line with at most 4 whitespace
tokens, no digit, and more than 2 characters; two or more tokens split into
first/last name, a single token becomes the first name. -/
def namePass : List (Nat × Line) → ContactData → List Nat →
    ContactData × List Nat
  | [], d, u => (d, u)
  | (i, l) :: rest, d, u =>
    if i ∈ u then namePass rest d u
    else if (pySplit l).length ≤ 4 && !(l.any Char.isDigit) then
      if 2 < l.length then
        if 2 ≤ (pySplit l).length then
          ({ d with firstName := strOf ((pySplit l).getD 0 []),
                    lastName := strOf (List.intercalate [' ']
                      (pySplit l).tail) }, i :: u)
        else ({ d with firstName := strOf l }, i :: u)
      else namePass rest d u
    else namePass rest d u

/-- The full extractor `heuristic_parse(text, data)` of `rolodex.py`:
the seven passes in source order, threading the used-index set, with the
address joined by newlines and the website-domain company fallback. -/
def heuristic_parse (text : String) (data : ContactData) : ContactData :=
  let lines := linesOf text
  let els := enumL 0 lines
  let e1 := emailPass els data []
  let p := phoneScan els [] e1.2
  let d2 := assignPhones p.1 e1.1
  let w := urlPass els "" p.2
  let a := addrPass lines els w.2
  let d3 := if a.1.isEmpty then d2
    else { d2 with address := strOf (List.intercalate ['\n'] a.1) }
  let t := titlePass els d3 a.2
  let c := companyPass els t.1 t.2
  let d5 := if c.1.company = "" ∧ w.1 ≠ "" then { c.1 with company := w.1 }
    else c.1
  (namePass els d5 c.2).1

/-- The number of newline characters in a string (an extracted field is a
"single value" when this is `0`; a 2-line address block has exactly `1`). -/
def countNl (s : String) : Nat :=
  s.data.count '\n'

/-- The non-fax phone numbers collected by pass 2 over a text, with their
context classification, in scan order.  (The collected list does not depend
on the used-index set, which pass 2 only extends.) -/
def foundPhones (text : String) : List (PType × String) :=
  (phoneScan (enumL 0 (linesOf text)) [] []).1

/-- The first `email_re` match of a line, if any. -/
def lineEmail (l : Line) : Option String :=
  match reFindall emailRE l with
  | [] => none
  | e :: _ => some (strOf e)

/-- The used-index set as it stands when the address pass starts, for a run
of the extractor on the all-empty record: the indices claimed by the email,
phone and URL passes. -/
def usedB4Addr (text : String) : List Nat :=
  (urlPass (enumL 0 (linesOf text)) ""
    (phoneScan (enumL 0 (linesOf text)) []
      (emailPass (enumL 0 (linesOf text)) emptyContact []).2).2).2

/-- The spec §8 business-card scenario text. -/
def c3text : String :=
  "Jane Doe\nSenior Engineer\nAcme Corp\njane.doe@acme.com\n" ++
  "(555) 123-4567\n123 Main St\nSpringfield, IL 62701"

/-! ## The merge / conflict-resolution engine

The repository source under `src/` contains only the extractor; the merge
engine of spec §4.2 has no implementation there, so it is modelled from the
spec's words and the claims about it are settled against this model. -/

/-- Modelled from the spec: the `ContactFields` record of spec §3 — eight
string attributes plus the two order-significant sequences `images`
(name/path pairs) and `notes` (name/content pairs).  (The merge engine
itself is absent from `src/`.) -/
structure ContactFields where
  firstName : String
  lastName : String
  company : String
  jobTitle : String
  email : String
  mobilePhone : String
  businessPhone : String
  address : String
  images : List (String × String)
  notes : List (String × String)
deriving DecidableEq, Repr

/-- Modelled from the spec: the merged value of one comparable field — if
`old` is empty after trimming and `new` is non-empty, copy `new`; in every
other case (both empty, both equal, or a conflict pending resolution) the
merged record provisionally retains `old`'s value. -/
def mergedValue (ov nv : String) : String :=
  if pyStripS ov = "" ∧ pyStripS nv ≠ "" then nv else ov

/-- Modelled from the spec: the conflict entries contributed by one
comparable field — the triple `(field_name, old_value, new_value)` exactly
when both values are non-empty after trimming and differ. -/
def fieldConflict (n ov nv : String) : List (String × String × String) :=
  if pyStripS ov ≠ "" ∧ pyStripS nv ≠ "" ∧ pyStripS ov ≠ pyStripS nv then
    [(n, ov, nv)]
  else []

/-- The six comparable field names of spec §4.2. -/
def comparableFields : List String :=
  ["company", "job_title", "email", "mobile_phone", "business_phone",
   "address"]

/-- Read a comparable field of a `ContactFields` by its spec name. -/
def getMergeField (d : ContactFields) (n : String) : String :=
  if n = "company" then d.company
  else if n = "job_title" then d.jobTitle
  else if n = "email" then d.email
  else if n = "mobile_phone" then d.mobilePhone
  else if n = "business_phone" then d.businessPhone
  else if n = "address" then d.address
  else ""

/-- Write a comparable field of a `ContactFields` by its spec name; any
other name is ignored. -/
def setMergeField (d : ContactFields) (n v : String) : ContactFields :=
  if n = "company" then { d with company := v }
  else if n = "job_title" then { d with jobTitle := v }
  else if n = "email" then { d with email := v }
  else if n = "mobile_phone" then { d with mobilePhone := v }
  else if n = "business_phone" then { d with businessPhone := v }
  else if n = "address" then { d with address := v }
  else d

/-- Modelled from the spec: `diff(old, new)` — the merged draft (name fields
kept from `old`, comparable fields merged by `mergedValue`, `images` and
`notes` concatenated `old` then `new`) together with the conflict list over
the comparable fields in their §4.2 order. -/
def mergeDiff (o n : ContactFields) : ContactFields ×
    List (String × String × String) :=
  ({ firstName := o.firstName
     lastName := o.lastName
     company := mergedValue o.company n.company
     jobTitle := mergedValue o.jobTitle n.jobTitle
     email := mergedValue o.email n.email
     mobilePhone := mergedValue o.mobilePhone n.mobilePhone
     businessPhone := mergedValue o.businessPhone n.businessPhone
     address := mergedValue o.address n.address
     images := o.images ++ n.images
     notes := o.notes ++ n.notes },
   fieldConflict "company" o.company n.company ++
   fieldConflict "job_title" o.jobTitle n.jobTitle ++
   fieldConflict "email" o.email n.email ++
   fieldConflict "mobile_phone" o.mobilePhone n.mobilePhone ++
   fieldConflict "business_phone" o.businessPhone n.businessPhone ++
   fieldConflict "address" o.address n.address)

/-- Modelled from the spec: apply one resolution — a choice of `"new"`
writes the conflict's new value, `"old"` its old value, and a field name the
resolution table does not cover is left as drafted. -/
def resolveStep (res : String → Option String)
    (d : ContactFields) (c : String × String × String) : ContactFields :=
  if res c.1 = some "new" then setMergeField d c.1 c.2.2
  else if res c.1 = some "old" then setMergeField d c.1 c.2.1
  else d

/-- Modelled from the spec: `apply_resolutions(merged_draft, conflicts,
resolution_map)` — each reported conflict is resolved independently, keyed
strictly by what the merge reported. -/
def applyResolutions (draft : ContactFields)
    (conflicts : List (String × String × String))
    (res : String → Option String) : ContactFields :=
  conflicts.foldl (resolveStep res) draft

/-- The spec §8 merge example, existing record: `old.email = "a@x.com"`. -/
def oldSample : ContactFields :=
  ⟨"Jane", "Doe", "", "", "a@x.com", "", "", "", [], []⟩

/-- The spec §8 merge example, incoming record: `new.email = "b@x.com"`. -/
def newSample : ContactFields :=
  ⟨"Jane", "Doe", "", "", "b@x.com", "", "", "", [], []⟩

/-! # Theorems

First the merge engine (claims C1 and C2), then the extractor. -/

/-- A member of a field's conflict list is exactly that field's triple. -/
theorem mem_fieldConflict {c : String × String × String} {n a b : String}
    (h : c ∈ fieldConflict n a b) : c = (n, a, b) := by
  unfold fieldConflict at h
  split at h
  · simpa using h
  · simp at h

/-- A genuinely conflicting field contributes exactly its triple. -/
theorem fieldConflict_eq {n a b : String} (h1 : pyStripS a ≠ "")
    (h2 : pyStripS b ≠ "") (h3 : pyStripS a ≠ pyStripS b) :
    fieldConflict n a b = [(n, a, b)] := by
  simp [fieldConflict, h1, h2, h3]

/-- A non-empty old value is retained by the draft merge. -/
theorem mergedValue_keep {a b : String} (h : pyStripS a ≠ "") :
    mergedValue a b = a := by
  simp [mergedValue, h]

/-- Folding resolutions over conflicts the resolution table does not cover
leaves the draft unchanged. -/
theorem foldl_resolveStep_skip (res : String → Option String)
    (l : List (String × String × String)) (d : ContactFields)
    (h : ∀ c ∈ l, res c.1 = none) : l.foldl (resolveStep res) d = d := by
  induction l generalizing d with
  | nil => rfl
  | cons x xs ih =>
    have hx : res x.1 = none := h x (by simp)
    have hstep : resolveStep res d x = d := by
      simp [resolveStep, hx]
    rw [List.foldl_cons, hstep]
    exact ih d (fun c hc => h c (List.mem_cons_of_mem _ hc))

/-- When exactly one conflict in the list is covered by the resolution
table, applying the resolutions is applying that one step. -/
theorem applyRes_mid (res : String → Option String) (d : ContactFields)
    (l1 l2 : List (String × String × String)) (x : String × String × String)
    (h1 : ∀ c ∈ l1, res c.1 = none) (h2 : ∀ c ∈ l2, res c.1 = none) :
    applyResolutions d (l1 ++ x :: l2) res = resolveStep res d x := by
  unfold applyResolutions
  rw [List.foldl_append, foldl_resolveStep_skip res l1 d h1,
      List.foldl_cons, foldl_resolveStep_skip res l2 _ h2]

/-- Every conflict of a field ≠ `f` has a first component ≠ `f`. -/
theorem fieldConflict_name_ne {m f a b : String} (hmf : m ≠ f) :
    ∀ c ∈ fieldConflict m a b, c.1 ≠ f := by
  intro c hc
  rw [mem_fieldConflict hc]
  exact hmf

/-- Claim C1: for every pair of `ContactFields` records `old` and `new`,
the merged record's `images` is `old.images ++ new.images` (so of length
`m + n`, order preserved within each side), its `notes` is likewise
`old.notes ++ new.notes`, and no reported conflict concerns `images` or
`notes`. -/
theorem merge_concatenates_images_notes (o n : ContactFields) :
    (mergeDiff o n).1.images = o.images ++ n.images ∧
    (mergeDiff o n).1.images.length = o.images.length + n.images.length ∧
    (mergeDiff o n).1.notes = o.notes ++ n.notes ∧
    (mergeDiff o n).1.notes.length = o.notes.length + n.notes.length ∧
    ∀ c ∈ (mergeDiff o n).2, c.1 ≠ "images" ∧ c.1 ≠ "notes" := by
  refine ⟨rfl, by simp [mergeDiff], rfl, by simp [mergeDiff], ?_⟩
  intro c hc
  simp only [mergeDiff, List.mem_append] at hc
  rcases hc with ((((h | h) | h) | h) | h) | h <;>
    (rw [mem_fieldConflict h]; exact ⟨by simp, by simp⟩)

/-- A conflict of a field other than `f` is ignored by the resolution table
that resolves only `f` as `"new"`. -/
theorem resolveNew_none {f m a b : String} (hmf : m ≠ f) :
    ∀ c ∈ fieldConflict m a b,
      (fun g => if g = f then some "new" else none : String → Option String)
        c.1 = none := by
  intro c hc
  rw [mem_fieldConflict hc]
  simp [hmf]

/-- Claim C2: for every pair of records and every comparable field `f` whose
two values are non-empty after trimming and differ, the merge reports the
conflict `(f, old_value, new_value)`, the draft retains `old`'s value for
`f`, and resolving `f` as `"new"` makes the merged record carry `new`'s
value for `f`. -/
theorem merge_conflict_reported_and_resolved (o n : ContactFields)
    (f : String) (hf : f ∈ comparableFields)
    (ho : pyStripS (getMergeField o f) ≠ "")
    (hn : pyStripS (getMergeField n f) ≠ "")
    (hd : pyStripS (getMergeField o f) ≠ pyStripS (getMergeField n f)) :
    (f, getMergeField o f, getMergeField n f) ∈ (mergeDiff o n).2 ∧
    getMergeField (mergeDiff o n).1 f = getMergeField o f ∧
    getMergeField
      (applyResolutions (mergeDiff o n).1 (mergeDiff o n).2
        (fun g => if g = f then some "new" else none)) f =
      getMergeField n f := by
  simp only [comparableFields, List.mem_cons, List.not_mem_nil,
    or_false] at hf
  rcases hf with rfl | rfl | rfl | rfl | rfl | rfl
  · -- company
    have hg : ∀ d : ContactFields, getMergeField d "company" = d.company :=
      fun d => rfl
    simp only [hg] at ho hn hd ⊢
    refine ⟨?_, ?_, ?_⟩
    · simp only [mergeDiff]
      rw [@fieldConflict_eq "company" o.company n.company ho hn hd]
      simp
    · exact mergedValue_keep ho
    · have hsp : (mergeDiff o n).2 =
          ([] : List (String × String × String)) ++
          ("company", o.company, n.company) ::
          (fieldConflict "job_title" o.jobTitle n.jobTitle ++ (fieldConflict "email" o.email n.email ++ (fieldConflict "mobile_phone" o.mobilePhone n.mobilePhone ++ (fieldConflict "business_phone" o.businessPhone n.businessPhone ++ fieldConflict "address" o.address n.address)))) := by
        simp only [mergeDiff]
        rw [@fieldConflict_eq "company" o.company n.company ho hn hd]
        simp [List.append_assoc]
      rw [hsp, applyRes_mid _ _ _ _ _
        (by simp)
        (List.forall_mem_append.mpr ⟨@resolveNew_none "company" "job_title" o.jobTitle n.jobTitle (by decide),
        (List.forall_mem_append.mpr ⟨@resolveNew_none "company" "email" o.email n.email (by decide),
        (List.forall_mem_append.mpr ⟨@resolveNew_none "company" "mobile_phone" o.mobilePhone n.mobilePhone (by decide),
        (List.forall_mem_append.mpr ⟨@resolveNew_none "company" "business_phone" o.businessPhone n.businessPhone (by decide),
        (@resolveNew_none "company" "address" o.address n.address (by decide))⟩)⟩)⟩)⟩)]
      rfl
  · -- job_title
    have hg : ∀ d : ContactFields, getMergeField d "job_title" = d.jobTitle :=
      fun d => rfl
    simp only [hg] at ho hn hd ⊢
    refine ⟨?_, ?_, ?_⟩
    · simp only [mergeDiff]
      rw [@fieldConflict_eq "job_title" o.jobTitle n.jobTitle ho hn hd]
      simp
    · exact mergedValue_keep ho
    · have hsp : (mergeDiff o n).2 =
          fieldConflict "company" o.company n.company ++
          ("job_title", o.jobTitle, n.jobTitle) ::
          (fieldConflict "email" o.email n.email ++ (fieldConflict "mobile_phone" o.mobilePhone n.mobilePhone ++ (fieldConflict "business_phone" o.businessPhone n.businessPhone ++ fieldConflict "address" o.address n.address))) := by
        simp only [mergeDiff]
        rw [@fieldConflict_eq "job_title" o.jobTitle n.jobTitle ho hn hd]
        simp [List.append_assoc]
      rw [hsp, applyRes_mid _ _ _ _ _
        (@resolveNew_none "job_title" "company" o.company n.company (by decide))
        (List.forall_mem_append.mpr ⟨@resolveNew_none "job_title" "email" o.email n.email (by decide),
        (List.forall_mem_append.mpr ⟨@resolveNew_none "job_title" "mobile_phone" o.mobilePhone n.mobilePhone (by decide),
        (List.forall_mem_append.mpr ⟨@resolveNew_none "job_title" "business_phone" o.businessPhone n.businessPhone (by decide),
        (@resolveNew_none "job_title" "address" o.address n.address (by decide))⟩)⟩)⟩)]
      rfl
  · -- email
    have hg : ∀ d : ContactFields, getMergeField d "email" = d.email :=
      fun d => rfl
    simp only [hg] at ho hn hd ⊢
    refine ⟨?_, ?_, ?_⟩
    · simp only [mergeDiff]
      rw [@fieldConflict_eq "email" o.email n.email ho hn hd]
      simp
    · exact mergedValue_keep ho
    · have hsp : (mergeDiff o n).2 =
          (fieldConflict "company" o.company n.company ++ fieldConflict "job_title" o.jobTitle n.jobTitle) ++
          ("email", o.email, n.email) ::
          (fieldConflict "mobile_phone" o.mobilePhone n.mobilePhone ++ (fieldConflict "business_phone" o.businessPhone n.businessPhone ++ fieldConflict "address" o.address n.address)) := by
        simp only [mergeDiff]
        rw [@fieldConflict_eq "email" o.email n.email ho hn hd]
        simp [List.append_assoc]
      rw [hsp, applyRes_mid _ _ _ _ _
        (List.forall_mem_append.mpr ⟨@resolveNew_none "email" "company" o.company n.company (by decide),
        (@resolveNew_none "email" "job_title" o.jobTitle n.jobTitle (by decide))⟩)
        (List.forall_mem_append.mpr ⟨@resolveNew_none "email" "mobile_phone" o.mobilePhone n.mobilePhone (by decide),
        (List.forall_mem_append.mpr ⟨@resolveNew_none "email" "business_phone" o.businessPhone n.businessPhone (by decide),
        (@resolveNew_none "email" "address" o.address n.address (by decide))⟩)⟩)]
      rfl
  · -- mobile_phone
    have hg : ∀ d : ContactFields, getMergeField d "mobile_phone" = d.mobilePhone :=
      fun d => rfl
    simp only [hg] at ho hn hd ⊢
    refine ⟨?_, ?_, ?_⟩
    · simp only [mergeDiff]
      rw [@fieldConflict_eq "mobile_phone" o.mobilePhone n.mobilePhone ho hn hd]
      simp
    · exact mergedValue_keep ho
    · have hsp : (mergeDiff o n).2 =
          (fieldConflict "company" o.company n.company ++ (fieldConflict "job_title" o.jobTitle n.jobTitle ++ fieldConflict "email" o.email n.email)) ++
          ("mobile_phone", o.mobilePhone, n.mobilePhone) ::
          (fieldConflict "business_phone" o.businessPhone n.businessPhone ++ fieldConflict "address" o.address n.address) := by
        simp only [mergeDiff]
        rw [@fieldConflict_eq "mobile_phone" o.mobilePhone n.mobilePhone ho hn hd]
        simp [List.append_assoc]
      rw [hsp, applyRes_mid _ _ _ _ _
        (List.forall_mem_append.mpr ⟨@resolveNew_none "mobile_phone" "company" o.company n.company (by decide),
        (List.forall_mem_append.mpr ⟨@resolveNew_none "mobile_phone" "job_title" o.jobTitle n.jobTitle (by decide),
        (@resolveNew_none "mobile_phone" "email" o.email n.email (by decide))⟩)⟩)
        (List.forall_mem_append.mpr ⟨@resolveNew_none "mobile_phone" "business_phone" o.businessPhone n.businessPhone (by decide),
        (@resolveNew_none "mobile_phone" "address" o.address n.address (by decide))⟩)]
      rfl
  · -- business_phone
    have hg : ∀ d : ContactFields, getMergeField d "business_phone" = d.businessPhone :=
      fun d => rfl
    simp only [hg] at ho hn hd ⊢
    refine ⟨?_, ?_, ?_⟩
    · simp only [mergeDiff]
      rw [@fieldConflict_eq "business_phone" o.businessPhone n.businessPhone ho hn hd]
      simp
    · exact mergedValue_keep ho
    · have hsp : (mergeDiff o n).2 =
          (fieldConflict "company" o.company n.company ++ (fieldConflict "job_title" o.jobTitle n.jobTitle ++ (fieldConflict "email" o.email n.email ++ fieldConflict "mobile_phone" o.mobilePhone n.mobilePhone))) ++
          ("business_phone", o.businessPhone, n.businessPhone) ::
          fieldConflict "address" o.address n.address := by
        simp only [mergeDiff]
        rw [@fieldConflict_eq "business_phone" o.businessPhone n.businessPhone ho hn hd]
        simp [List.append_assoc]
      rw [hsp, applyRes_mid _ _ _ _ _
        (List.forall_mem_append.mpr ⟨@resolveNew_none "business_phone" "company" o.company n.company (by decide),
        (List.forall_mem_append.mpr ⟨@resolveNew_none "business_phone" "job_title" o.jobTitle n.jobTitle (by decide),
        (List.forall_mem_append.mpr ⟨@resolveNew_none "business_phone" "email" o.email n.email (by decide),
        (@resolveNew_none "business_phone" "mobile_phone" o.mobilePhone n.mobilePhone (by decide))⟩)⟩)⟩)
        (@resolveNew_none "business_phone" "address" o.address n.address (by decide))]
      rfl
  · -- address
    have hg : ∀ d : ContactFields, getMergeField d "address" = d.address :=
      fun d => rfl
    simp only [hg] at ho hn hd ⊢
    refine ⟨?_, ?_, ?_⟩
    · simp only [mergeDiff]
      rw [@fieldConflict_eq "address" o.address n.address ho hn hd]
      simp
    · exact mergedValue_keep ho
    · have hsp : (mergeDiff o n).2 =
          (fieldConflict "company" o.company n.company ++ (fieldConflict "job_title" o.jobTitle n.jobTitle ++ (fieldConflict "email" o.email n.email ++ (fieldConflict "mobile_phone" o.mobilePhone n.mobilePhone ++ fieldConflict "business_phone" o.businessPhone n.businessPhone)))) ++
          ("address", o.address, n.address) ::
          ([] : List (String × String × String)) := by
        simp only [mergeDiff]
        rw [@fieldConflict_eq "address" o.address n.address ho hn hd]
        simp [List.append_assoc]
      rw [hsp, applyRes_mid _ _ _ _ _
        (List.forall_mem_append.mpr ⟨@resolveNew_none "address" "company" o.company n.company (by decide),
        (List.forall_mem_append.mpr ⟨@resolveNew_none "address" "job_title" o.jobTitle n.jobTitle (by decide),
        (List.forall_mem_append.mpr ⟨@resolveNew_none "address" "email" o.email n.email (by decide),
        (List.forall_mem_append.mpr ⟨@resolveNew_none "address" "mobile_phone" o.mobilePhone n.mobilePhone (by decide),
        (@resolveNew_none "address" "business_phone" o.businessPhone n.businessPhone (by decide))⟩)⟩)⟩)⟩)
        (by simp)]
      rfl

/-- Witness for C2 at the spec §8 example: conflicting e-mails `"a@x.com"`
and `"b@x.com"` are reported, the draft keeps `"a@x.com"`, and resolving
`"email"` as `"new"` yields `"b@x.com"`. -/
theorem merge_conflict_witness :
    ("email", getMergeField oldSample "email",
      getMergeField newSample "email") ∈ (mergeDiff oldSample newSample).2 ∧
    getMergeField (mergeDiff oldSample newSample).1 "email" =
      getMergeField oldSample "email" ∧
    getMergeField
      (applyResolutions (mergeDiff oldSample newSample).1
        (mergeDiff oldSample newSample).2
        (fun g => if g = "email" then some "new" else none)) "email" =
      getMergeField newSample "email" :=
  merge_conflict_reported_and_resolved oldSample newSample "email"
    (by decide) (by decide) (by decide) (by decide)

/-! ## Extractor structure lemmas

Each pass only ever rewrites its own field(s) of the threaded record; the
shape lemmas make that precise and give all frame facts. -/

/-- The email pass only rewrites the e-mail field. -/
theorem emailPass_shape (els : List (Nat × Line)) (d : ContactData)
    (u : List Nat) :
    ∃ v, (emailPass els d u).1 = { d with emailAddress := v } := by
  induction els generalizing d u with
  | nil => exact ⟨d.emailAddress, rfl⟩
  | cons il rest ih =>
    obtain ⟨i, l⟩ := il
    simp only [emailPass]
    split
    · exact ih d u
    · split
      · exact ih d u
      · next e es heq =>
        obtain ⟨v, hv⟩ := ih { d with emailAddress := strOf e } (i :: u)
        exact ⟨v, by rw [hv]⟩

/-- The typed-number distribution only rewrites the two phone fields. -/
theorem phoneFold_shape (found : List (PType × String)) (d : ContactData) :
    ∃ a b, found.foldl phoneFoldStep d =
      { d with mobilePhone := a, businessPhone := b } := by
  induction found generalizing d with
  | nil => exact ⟨d.mobilePhone, d.businessPhone, rfl⟩
  | cons p rest ih =>
    rw [List.foldl_cons]
    cases hp : p.1 with
    | mobile =>
      obtain ⟨a, b, hab⟩ := ih { d with mobilePhone := p.2 }
      exact ⟨a, b, by simp [phoneFoldStep, hp, hab]⟩
    | business =>
      obtain ⟨a, b, hab⟩ := ih { d with businessPhone := p.2 }
      exact ⟨a, b, by simp [phoneFoldStep, hp, hab]⟩
    | fax =>
      obtain ⟨a, b, hab⟩ := ih d
      exact ⟨a, b, by simp [phoneFoldStep, hp, hab]⟩
    | unknown =>
      obtain ⟨a, b, hab⟩ := ih d
      exact ⟨a, b, by simp [phoneFoldStep, hp, hab]⟩

/-- Phone assignment only rewrites the two phone fields. -/
theorem assignPhones_shape (found : List (PType × String))
    (d : ContactData) :
    ∃ a b, assignPhones found d =
      { d with mobilePhone := a, businessPhone := b } := by
  rcases found with _ | ⟨p, _ | ⟨q, rest⟩⟩
  · exact ⟨d.mobilePhone, d.businessPhone, rfl⟩
  · exact ⟨p.2, d.businessPhone, rfl⟩
  · obtain ⟨a, b, hab⟩ := phoneFold_shape (p :: q :: rest) d
    unfold assignPhones
    simp only [hab]
    split
    · exact ⟨a, b, rfl⟩
    · split
      · exact ⟨_, b, rfl⟩
      · split
        · exact ⟨a, _, rfl⟩
        · exact ⟨a, b, rfl⟩

/-- The title pass only rewrites the job-title field. -/
theorem titlePass_shape (els : List (Nat × Line)) (d : ContactData)
    (u : List Nat) :
    ∃ v, (titlePass els d u).1 = { d with jobTitle := v } := by
  induction els generalizing d u with
  | nil => exact ⟨d.jobTitle, rfl⟩
  | cons il rest ih =>
    obtain ⟨i, l⟩ := il
    simp only [titlePass]
    split
    · exact ih d u
    · split
      · split
        · exact ⟨strOf l, rfl⟩
        · exact ih d u
      · exact ih d u

/-- The company pass only rewrites the company field. -/
theorem companyPass_shape (els : List (Nat × Line)) (d : ContactData)
    (u : List Nat) :
    ∃ v, (companyPass els d u).1 = { d with company := v } := by
  induction els generalizing d u with
  | nil => exact ⟨d.company, rfl⟩
  | cons il rest ih =>
    obtain ⟨i, l⟩ := il
    simp only [companyPass]
    split
    · exact ih d u
    · split
      · exact ⟨strOf l, rfl⟩
      · exact ih d u

/-- The name pass only rewrites the two name fields. -/
theorem namePass_shape (els : List (Nat × Line)) (d : ContactData)
    (u : List Nat) :
    ∃ a b, (namePass els d u).1 =
      { d with firstName := a, lastName := b } := by
  induction els generalizing d u with
  | nil => exact ⟨d.firstName, d.lastName, rfl⟩
  | cons il rest ih =>
    obtain ⟨i, l⟩ := il
    simp only [namePass]
    split
    · exact ih d u
    · split
      · split
        · split
          · exact ⟨_, _, rfl⟩
          · exact ⟨strOf l, d.lastName, rfl⟩
        · exact ih d u
      · exact ih d u

/-- `emailPass` leaves `id` unchanged. -/
theorem emailPass_id (els : List (Nat × Line)) (d : ContactData)
    (u : List Nat) : (emailPass els d u).1.id = d.id := by
  obtain ⟨v, h⟩ := emailPass_shape els d u
  rw [h]

/-- `emailPass` leaves `firstName` unchanged. -/
theorem emailPass_firstName (els : List (Nat × Line)) (d : ContactData)
    (u : List Nat) : (emailPass els d u).1.firstName = d.firstName := by
  obtain ⟨v, h⟩ := emailPass_shape els d u
  rw [h]

/-- `emailPass` leaves `lastName` unchanged. -/
theorem emailPass_lastName (els : List (Nat × Line)) (d : ContactData)
    (u : List Nat) : (emailPass els d u).1.lastName = d.lastName := by
  obtain ⟨v, h⟩ := emailPass_shape els d u
  rw [h]

/-- `emailPass` leaves `company` unchanged. -/
theorem emailPass_company (els : List (Nat × Line)) (d : ContactData)
    (u : List Nat) : (emailPass els d u).1.company = d.company := by
  obtain ⟨v, h⟩ := emailPass_shape els d u
  rw [h]

/-- `emailPass` leaves `jobTitle` unchanged. -/
theorem emailPass_jobTitle (els : List (Nat × Line)) (d : ContactData)
    (u : List Nat) : (emailPass els d u).1.jobTitle = d.jobTitle := by
  obtain ⟨v, h⟩ := emailPass_shape els d u
  rw [h]

/-- `emailPass` leaves `mobilePhone` unchanged. -/
theorem emailPass_mobilePhone (els : List (Nat × Line)) (d : ContactData)
    (u : List Nat) : (emailPass els d u).1.mobilePhone = d.mobilePhone := by
  obtain ⟨v, h⟩ := emailPass_shape els d u
  rw [h]

/-- `emailPass` leaves `businessPhone` unchanged. -/
theorem emailPass_businessPhone (els : List (Nat × Line)) (d : ContactData)
    (u : List Nat) : (emailPass els d u).1.businessPhone = d.businessPhone := by
  obtain ⟨v, h⟩ := emailPass_shape els d u
  rw [h]

/-- `emailPass` leaves `address` unchanged. -/
theorem emailPass_address (els : List (Nat × Line)) (d : ContactData)
    (u : List Nat) : (emailPass els d u).1.address = d.address := by
  obtain ⟨v, h⟩ := emailPass_shape els d u
  rw [h]

/-- `emailPass` leaves `imageData` unchanged. -/
theorem emailPass_imageData (els : List (Nat × Line)) (d : ContactData)
    (u : List Nat) : (emailPass els d u).1.imageData = d.imageData := by
  obtain ⟨v, h⟩ := emailPass_shape els d u
  rw [h]

/-- `emailPass` leaves `notesData` unchanged. -/
theorem emailPass_notesData (els : List (Nat × Line)) (d : ContactData)
    (u : List Nat) : (emailPass els d u).1.notesData = d.notesData := by
  obtain ⟨v, h⟩ := emailPass_shape els d u
  rw [h]

/-- `titlePass` leaves `id` unchanged. -/
theorem titlePass_id (els : List (Nat × Line)) (d : ContactData)
    (u : List Nat) : (titlePass els d u).1.id = d.id := by
  obtain ⟨v, h⟩ := titlePass_shape els d u
  rw [h]

/-- `titlePass` leaves `firstName` unchanged. -/
theorem titlePass_firstName (els : List (Nat × Line)) (d : ContactData)
    (u : List Nat) : (titlePass els d u).1.firstName = d.firstName := by
  obtain ⟨v, h⟩ := titlePass_shape els d u
  rw [h]

/-- `titlePass` leaves `lastName` unchanged. -/
theorem titlePass_lastName (els : List (Nat × Line)) (d : ContactData)
    (u : List Nat) : (titlePass els d u).1.lastName = d.lastName := by
  obtain ⟨v, h⟩ := titlePass_shape els d u
  rw [h]

/-- `titlePass` leaves `company` unchanged. -/
theorem titlePass_company (els : List (Nat × Line)) (d : ContactData)
    (u : List Nat) : (titlePass els d u).1.company = d.company := by
  obtain ⟨v, h⟩ := titlePass_shape els d u
  rw [h]

/-- `titlePass` leaves `emailAddress` unchanged. -/
theorem titlePass_emailAddress (els : List (Nat × Line)) (d : ContactData)
    (u : List Nat) : (titlePass els d u).1.emailAddress = d.emailAddress := by
  obtain ⟨v, h⟩ := titlePass_shape els d u
  rw [h]

/-- `titlePass` leaves `mobilePhone` unchanged. -/
theorem titlePass_mobilePhone (els : List (Nat × Line)) (d : ContactData)
    (u : List Nat) : (titlePass els d u).1.mobilePhone = d.mobilePhone := by
  obtain ⟨v, h⟩ := titlePass_shape els d u
  rw [h]

/-- `titlePass` leaves `businessPhone` unchanged. -/
theorem titlePass_businessPhone (els : List (Nat × Line)) (d : ContactData)
    (u : List Nat) : (titlePass els d u).1.businessPhone = d.businessPhone := by
  obtain ⟨v, h⟩ := titlePass_shape els d u
  rw [h]

/-- `titlePass` leaves `address` unchanged. -/
theorem titlePass_address (els : List (Nat × Line)) (d : ContactData)
    (u : List Nat) : (titlePass els d u).1.address = d.address := by
  obtain ⟨v, h⟩ := titlePass_shape els d u
  rw [h]

/-- `titlePass` leaves `imageData` unchanged. -/
theorem titlePass_imageData (els : List (Nat × Line)) (d : ContactData)
    (u : List Nat) : (titlePass els d u).1.imageData = d.imageData := by
  obtain ⟨v, h⟩ := titlePass_shape els d u
  rw [h]

/-- `titlePass` leaves `notesData` unchanged. -/
theorem titlePass_notesData (els : List (Nat × Line)) (d : ContactData)
    (u : List Nat) : (titlePass els d u).1.notesData = d.notesData := by
  obtain ⟨v, h⟩ := titlePass_shape els d u
  rw [h]

/-- `companyPass` leaves `id` unchanged. -/
theorem companyPass_id (els : List (Nat × Line)) (d : ContactData)
    (u : List Nat) : (companyPass els d u).1.id = d.id := by
  obtain ⟨v, h⟩ := companyPass_shape els d u
  rw [h]

/-- `companyPass` leaves `firstName` unchanged. -/
theorem companyPass_firstName (els : List (Nat × Line)) (d : ContactData)
    (u : List Nat) : (companyPass els d u).1.firstName = d.firstName := by
  obtain ⟨v, h⟩ := companyPass_shape els d u
  rw [h]

/-- `companyPass` leaves `lastName` unchanged. -/
theorem companyPass_lastName (els : List (Nat × Line)) (d : ContactData)
    (u : List Nat) : (companyPass els d u).1.lastName = d.lastName := by
  obtain ⟨v, h⟩ := companyPass_shape els d u
  rw [h]

/-- `companyPass` leaves `jobTitle` unchanged. -/
theorem companyPass_jobTitle (els : List (Nat × Line)) (d : ContactData)
    (u : List Nat) : (companyPass els d u).1.jobTitle = d.jobTitle := by
  obtain ⟨v, h⟩ := companyPass_shape els d u
  rw [h]

/-- `companyPass` leaves `emailAddress` unchanged. -/
theorem companyPass_emailAddress (els : List (Nat × Line)) (d : ContactData)
    (u : List Nat) : (companyPass els d u).1.emailAddress = d.emailAddress := by
  obtain ⟨v, h⟩ := companyPass_shape els d u
  rw [h]

/-- `companyPass` leaves `mobilePhone` unchanged. -/
theorem companyPass_mobilePhone (els : List (Nat × Line)) (d : ContactData)
    (u : List Nat) : (companyPass els d u).1.mobilePhone = d.mobilePhone := by
  obtain ⟨v, h⟩ := companyPass_shape els d u
  rw [h]

/-- `companyPass` leaves `businessPhone` unchanged. -/
theorem companyPass_businessPhone (els : List (Nat × Line)) (d : ContactData)
    (u : List Nat) : (companyPass els d u).1.businessPhone = d.businessPhone := by
  obtain ⟨v, h⟩ := companyPass_shape els d u
  rw [h]

/-- `companyPass` leaves `address` unchanged. -/
theorem companyPass_address (els : List (Nat × Line)) (d : ContactData)
    (u : List Nat) : (companyPass els d u).1.address = d.address := by
  obtain ⟨v, h⟩ := companyPass_shape els d u
  rw [h]

/-- `companyPass` leaves `imageData` unchanged. -/
theorem companyPass_imageData (els : List (Nat × Line)) (d : ContactData)
    (u : List Nat) : (companyPass els d u).1.imageData = d.imageData := by
  obtain ⟨v, h⟩ := companyPass_shape els d u
  rw [h]

/-- `companyPass` leaves `notesData` unchanged. -/
theorem companyPass_notesData (els : List (Nat × Line)) (d : ContactData)
    (u : List Nat) : (companyPass els d u).1.notesData = d.notesData := by
  obtain ⟨v, h⟩ := companyPass_shape els d u
  rw [h]

/-- `namePass` leaves `id` unchanged. -/
theorem namePass_id (els : List (Nat × Line)) (d : ContactData)
    (u : List Nat) : (namePass els d u).1.id = d.id := by
  obtain ⟨a, b, h⟩ := namePass_shape els d u
  rw [h]

/-- `namePass` leaves `company` unchanged. -/
theorem namePass_company (els : List (Nat × Line)) (d : ContactData)
    (u : List Nat) : (namePass els d u).1.company = d.company := by
  obtain ⟨a, b, h⟩ := namePass_shape els d u
  rw [h]

/-- `namePass` leaves `jobTitle` unchanged. -/
theorem namePass_jobTitle (els : List (Nat × Line)) (d : ContactData)
    (u : List Nat) : (namePass els d u).1.jobTitle = d.jobTitle := by
  obtain ⟨a, b, h⟩ := namePass_shape els d u
  rw [h]

/-- `namePass` leaves `emailAddress` unchanged. -/
theorem namePass_emailAddress (els : List (Nat × Line)) (d : ContactData)
    (u : List Nat) : (namePass els d u).1.emailAddress = d.emailAddress := by
  obtain ⟨a, b, h⟩ := namePass_shape els d u
  rw [h]

/-- `namePass` leaves `mobilePhone` unchanged. -/
theorem namePass_mobilePhone (els : List (Nat × Line)) (d : ContactData)
    (u : List Nat) : (namePass els d u).1.mobilePhone = d.mobilePhone := by
  obtain ⟨a, b, h⟩ := namePass_shape els d u
  rw [h]

/-- `namePass` leaves `businessPhone` unchanged. -/
theorem namePass_businessPhone (els : List (Nat × Line)) (d : ContactData)
    (u : List Nat) : (namePass els d u).1.businessPhone = d.businessPhone := by
  obtain ⟨a, b, h⟩ := namePass_shape els d u
  rw [h]

/-- `namePass` leaves `address` unchanged. -/
theorem namePass_address (els : List (Nat × Line)) (d : ContactData)
    (u : List Nat) : (namePass els d u).1.address = d.address := by
  obtain ⟨a, b, h⟩ := namePass_shape els d u
  rw [h]

/-- `namePass` leaves `imageData` unchanged. -/
theorem namePass_imageData (els : List (Nat × Line)) (d : ContactData)
    (u : List Nat) : (namePass els d u).1.imageData = d.imageData := by
  obtain ⟨a, b, h⟩ := namePass_shape els d u
  rw [h]

/-- `namePass` leaves `notesData` unchanged. -/
theorem namePass_notesData (els : List (Nat × Line)) (d : ContactData)
    (u : List Nat) : (namePass els d u).1.notesData = d.notesData := by
  obtain ⟨a, b, h⟩ := namePass_shape els d u
  rw [h]

/-- `assignPhones` leaves `id` unchanged. -/
theorem assignPhones_id (found : List (PType × String)) (d : ContactData) :
    (assignPhones found d).id = d.id := by
  obtain ⟨a, b, h⟩ := assignPhones_shape found d
  rw [h]

/-- `assignPhones` leaves `firstName` unchanged. -/
theorem assignPhones_firstName (found : List (PType × String)) (d : ContactData) :
    (assignPhones found d).firstName = d.firstName := by
  obtain ⟨a, b, h⟩ := assignPhones_shape found d
  rw [h]

/-- `assignPhones` leaves `lastName` unchanged. -/
theorem assignPhones_lastName (found : List (PType × String)) (d : ContactData) :
    (assignPhones found d).lastName = d.lastName := by
  obtain ⟨a, b, h⟩ := assignPhones_shape found d
  rw [h]

/-- `assignPhones` leaves `company` unchanged. -/
theorem assignPhones_company (found : List (PType × String)) (d : ContactData) :
    (assignPhones found d).company = d.company := by
  obtain ⟨a, b, h⟩ := assignPhones_shape found d
  rw [h]

/-- `assignPhones` leaves `jobTitle` unchanged. -/
theorem assignPhones_jobTitle (found : List (PType × String)) (d : ContactData) :
    (assignPhones found d).jobTitle = d.jobTitle := by
  obtain ⟨a, b, h⟩ := assignPhones_shape found d
  rw [h]

/-- `assignPhones` leaves `emailAddress` unchanged. -/
theorem assignPhones_emailAddress (found : List (PType × String)) (d : ContactData) :
    (assignPhones found d).emailAddress = d.emailAddress := by
  obtain ⟨a, b, h⟩ := assignPhones_shape found d
  rw [h]

/-- `assignPhones` leaves `address` unchanged. -/
theorem assignPhones_address (found : List (PType × String)) (d : ContactData) :
    (assignPhones found d).address = d.address := by
  obtain ⟨a, b, h⟩ := assignPhones_shape found d
  rw [h]

/-- `assignPhones` leaves `imageData` unchanged. -/
theorem assignPhones_imageData (found : List (PType × String)) (d : ContactData) :
    (assignPhones found d).imageData = d.imageData := by
  obtain ⟨a, b, h⟩ := assignPhones_shape found d
  rw [h]

/-- `assignPhones` leaves `notesData` unchanged. -/
theorem assignPhones_notesData (found : List (PType × String)) (d : ContactData) :
    (assignPhones found d).notesData = d.notesData := by
  obtain ⟨a, b, h⟩ := assignPhones_shape found d
  rw [h]

/-- Push the address-pass conditional inside the record update. -/
theorem ite_update_address (c : Prop) [Decidable c] (x : ContactData)
    (a : String) :
    (if c then x else { x with address := a }) =
    { x with address := if c then x.address else a } := by
  split <;> rfl

/-- Push the company-fallback conditional inside the record update. -/
theorem ite_update_company (c : Prop) [Decidable c] (x : ContactData)
    (w : String) :
    (if c then { x with company := w } else x) =
    { x with company := if c then w else x.company } := by
  split <;> rfl

/-- Claim C10: `heuristic_parse` writes only the eight contact string
fields; the `ID`, `Image Data` and `Notes Data` entries of the returned
record are those of the input record, for every text and input record. -/
theorem heuristic_parse_frame (text : String) (d : ContactData) :
    (heuristic_parse text d).id = d.id ∧
    (heuristic_parse text d).imageData = d.imageData ∧
    (heuristic_parse text d).notesData = d.notesData := by
  refine ⟨?_, ?_, ?_⟩ <;>
    (simp only [heuristic_parse]
     rw [ite_update_address, ite_update_company]
     simp [namePass_id, namePass_imageData, namePass_notesData,
       companyPass_id, companyPass_imageData, companyPass_notesData,
       titlePass_id, titlePass_imageData, titlePass_notesData,
       assignPhones_id, assignPhones_imageData, assignPhones_notesData,
       emailPass_id, emailPass_imageData, emailPass_notesData])

/-- The lines of the empty text. -/
theorem linesOf_empty : linesOf "" = [] := rfl

/-- The phone list collected by pass 2 does not depend on the incoming
used-index set (pass 2 scans every line). -/
theorem phoneScan_found_indep (els : List (Nat × Line))
    (found : List (PType × String)) (u u' : List Nat) :
    (phoneScan els found u).1 = (phoneScan els found u').1 := by
  induction els generalizing found u u' with
  | nil => rfl
  | cons il rest ih =>
    obtain ⟨i, l⟩ := il
    by_cases hk : (keptPhones l).isEmpty
    · simp only [phoneScan, if_pos hk]
      exact ih found u u'
    · simp only [phoneScan, if_neg hk]
      exact ih (found ++ keptPhones l) (i :: u) (i :: u')

/-- The phone list the extractor pipeline feeds to the assignment step is
`foundPhones text`. -/
theorem pipeline_found_eq (text : String) :
    (phoneScan (enumL 0 (linesOf text)) []
      (emailPass (enumL 0 (linesOf text)) emptyContact []).2).1 =
    foundPhones text :=
  phoneScan_found_indep _ _ _ []

/-- Claim C6: whenever exactly one non-fax phone number is found across all
lines of a text (run on the all-empty record), it is stored in
`mobile_phone` — whatever its context classification, including a
business-context sole number — and `business_phone` stays empty. -/
theorem sole_phone_goes_to_mobile (text : String) (pt : PType)
    (num : String) (h : foundPhones text = [(pt, num)]) :
    (heuristic_parse text emptyContact).mobilePhone = num ∧
    (heuristic_parse text emptyContact).businessPhone = "" := by
  have hps := (pipeline_found_eq text).trans h
  constructor
  · simp only [heuristic_parse]
    rw [ite_update_address, ite_update_company]
    simp only [hps]
    simp [namePass_mobilePhone, companyPass_mobilePhone,
      titlePass_mobilePhone, assignPhones]
  · simp only [heuristic_parse]
    rw [ite_update_address, ite_update_company]
    simp only [hps]
    simp [namePass_businessPhone, companyPass_businessPhone,
      titlePass_businessPhone, assignPhones, emailPass_businessPhone,
      emptyContact]

/-- Witness for C6: the sole phone of `"Office: 234-5678"` is classified as
a business number by its context, yet lands in `mobile_phone`. -/
theorem sole_phone_witness :
    foundPhones "Office: 234-5678" = [(PType.business, "234-5678")] ∧
    (heuristic_parse "Office: 234-5678" emptyContact).mobilePhone =
      "234-5678" ∧
    (heuristic_parse "Office: 234-5678" emptyContact).businessPhone = "" :=
  ⟨by decide, sole_phone_goes_to_mobile "Office: 234-5678" PType.business
    "234-5678" (by decide)⟩

/-- Amended C7: when the found list is exactly two unknown-context numbers
(and the record is all-empty), only the first unknown number is used — it
backfills `mobile_phone`, and `business_phone` stays empty. -/
theorem unknown_backfill_single (text : String) (n1 n2 : String)
    (h : foundPhones text = [(PType.unknown, n1), (PType.unknown, n2)]) :
    (heuristic_parse text emptyContact).mobilePhone = n1 ∧
    (heuristic_parse text emptyContact).businessPhone = "" := by
  have hps := (pipeline_found_eq text).trans h
  constructor
  · simp only [heuristic_parse]
    rw [ite_update_address, ite_update_company]
    simp only [hps]
    simp [namePass_mobilePhone, companyPass_mobilePhone,
      titlePass_mobilePhone, assignPhones, phoneFoldStep,
      emailPass_mobilePhone, emptyContact]
  · simp only [heuristic_parse]
    rw [ite_update_address, ite_update_company]
    simp only [hps]
    simp [namePass_businessPhone, companyPass_businessPhone,
      titlePass_businessPhone, assignPhones, phoneFoldStep,
      emailPass_mobilePhone, emailPass_businessPhone, emptyContact]

/-- Counterexample to C7 as stated: the text `"234-5678\n345-6789"` yields
two unknown-context numbers and no typed numbers, yet `business_phone`
receives neither — only `mobile_phone` is backfilled. -/
theorem unknown_backfill_counterexample :
    foundPhones "234-5678\n345-6789" =
      [(PType.unknown, "234-5678"), (PType.unknown, "345-6789")] ∧
    (heuristic_parse "234-5678\n345-6789" emptyContact).businessPhone ≠
      "234-5678" ∧
    (heuristic_parse "234-5678\n345-6789" emptyContact).businessPhone ≠
      "345-6789" := by
  refine ⟨by decide, by decide, by decide⟩

/-- `getD` after consing onto a `getLast?`: the head only matters when the
tail is empty. -/
theorem getLast?_cons_getD (a : String) (l : List String) (x : String) :
    ((a :: l).getLast?).getD x = (l.getLast?).getD a := by
  cases l with
  | nil => rfl
  | cons y ys =>
    rw [List.getLast?_cons_cons]
    cases h : (y :: ys).getLast? with
    | none =>
      exact absurd (List.getLast?_eq_none_iff.mp h) (by simp)
    | some z => rfl

/-- The email pass leaves the e-mail field at the first match of the last
matching line (each matching line overwrites the previous value), starting
from the default when no line matches. -/
theorem emailPass_value (ls : List Line) (n : Nat) (d : ContactData)
    (u : List Nat) (hu : ∀ j ∈ u, j < n) :
    (emailPass (enumL n ls) d u).1.emailAddress =
      ((ls.filterMap lineEmail).getLast?).getD d.emailAddress := by
  induction ls generalizing n d u with
  | nil => rfl
  | cons l ls ih =>
    have hn : n ∉ u := fun hmem => absurd (hu n hmem) (lt_irrefl n)
    simp only [enumL, emailPass, if_neg hn]
    cases hfa : reFindall emailRE l with
    | nil =>
      have hle : lineEmail l = none := by simp [lineEmail, hfa]
      simp only [hfa]
      rw [ih (n + 1) d u (fun j hj => Nat.lt_succ_of_lt (hu j hj))]
      simp [List.filterMap_cons, hle]
    | cons e es =>
      have hle : lineEmail l = some (strOf e) := by simp [lineEmail, hfa]
      simp only [hfa]
      rw [ih (n + 1) { d with emailAddress := strOf e } (n :: u)
        (fun j hj => by
          rcases List.mem_cons.mp hj with rfl | hj
          · exact Nat.lt_succ_self j
          · exact Nat.lt_succ_of_lt (hu j hj))]
      simp only [List.filterMap_cons, hle]
      rw [getLast?_cons_getD]

/-- Amended C4: the extractor's e-mail field is the first match of the
*bottommost* matching line — the email pass overwrites the field on every
matching line, so the last one wins. -/
theorem extractor_email_last (text : String) (d : ContactData) (e : String)
    (h : ((linesOf text).filterMap lineEmail).getLast? = some e) :
    (heuristic_parse text d).emailAddress = e := by
  simp only [heuristic_parse]
  rw [ite_update_address, ite_update_company]
  simp only [namePass_emailAddress, companyPass_emailAddress,
    titlePass_emailAddress]
  simp only [assignPhones_emailAddress]
  rw [emailPass_value (linesOf text) 0 d [] (by simp)]
  simp [h]

/-- Counterexample to C4 as stated: with matching lines `"a@x.com"` then
`"b@y.com"`, the claim's "first match scanning top-to-bottom" would be
`"a@x.com"`, but the extractor reports the later line's match. -/
theorem email_last_counterexample :
    (linesOf "a@x.com\nb@y.com").filterMap lineEmail =
      ["a@x.com", "b@y.com"] ∧
    (heuristic_parse "a@x.com\nb@y.com" emptyContact).emailAddress ≠
      "a@x.com" := by
  decide

/-- Witness for the amended C4 at the two-email text. -/
theorem email_last_witness :
    ((linesOf "a@x.com\nb@y.com").filterMap lineEmail).getLast? =
      some "b@y.com" ∧
    (heuristic_parse "a@x.com\nb@y.com" emptyContact).emailAddress =
      "b@y.com" :=
  ⟨by decide, extractor_email_last "a@x.com\nb@y.com" emptyContact "b@y.com"
    (by decide)⟩

/-- Characters of a slice come from the sliced list. -/
theorem slice_subset (s : Line) (a b : Nat) : ∀ c ∈ slice s a b, c ∈ s :=
  fun c hc => List.drop_subset a s (List.take_subset _ _ hc)

/-- Characters of a stripped line come from the line. -/
theorem pyStrip_subset (l : Line) : ∀ c ∈ pyStrip l, c ∈ l := by
  intro c hc
  unfold pyStrip at hc
  rw [List.mem_reverse] at hc
  have h1 := (List.dropWhile_sublist _).subset hc
  rw [List.mem_reverse] at h1
  exact (List.dropWhile_sublist _).subset h1

/-- Characters of any `findall` result come from the searched line. -/
theorem reFindall_subset (r : RE) (l : Line) :
    ∀ e ∈ reFindall r l, ∀ c ∈ e, c ∈ l := by
  intro e he c hc
  unfold reFindall at he
  obtain ⟨m, _, rfl⟩ := List.mem_map.mp he
  exact slice_subset l m.1 m.2 c hc

/-- No piece produced by splitting on newlines contains a newline. -/
theorem splitOnNl_no_nl (cs : Line) : ∀ l ∈ splitOnNl cs, '\n' ∉ l := by
  induction cs with
  | nil =>
    intro l hl
    simp only [splitOnNl, List.mem_singleton] at hl
    subst hl
    simp
  | cons c cs ih =>
    intro l hl
    simp only [splitOnNl] at hl
    by_cases hc : c = '\n'
    · rw [if_pos hc] at hl
      rcases List.mem_cons.mp hl with rfl | hl
      · simp
      · exact ih l hl
    · rw [if_neg hc] at hl
      cases hr : splitOnNl cs with
      | nil =>
        rw [hr] at hl
        simp only [List.mem_singleton] at hl
        subst hl
        simp [hc]
        exact fun he => hc he.symm
      | cons h t =>
        rw [hr] at hl
        rcases List.mem_cons.mp hl with rfl | hl
        · intro hmem
          rcases List.mem_cons.mp hmem with he | hmem
          · exact hc he.symm
          · exact ih h (by rw [hr]; exact List.mem_cons_self _ _) hmem
        · exact ih l (by rw [hr]; exact List.mem_cons_of_mem _ hl)

/-- No extracted line contains a newline character. -/
theorem linesOf_no_nl (text : String) : ∀ l ∈ linesOf text, '\n' ∉ l := by
  intro l hl hc
  unfold linesOf at hl
  obtain ⟨l0, hl0, rfl⟩ := List.mem_map.mp (List.mem_of_mem_filter hl)
  exact splitOnNl_no_nl _ l0 hl0 (pyStrip_subset _ _ hc)

/-- Members of an enumeration carry members of the underlying list. -/
theorem enumL_mem_snd {il : Nat × α} {n : Nat} {ls : List α}
    (h : il ∈ enumL n ls) : il.2 ∈ ls := by
  induction ls generalizing n with
  | nil => exact absurd h (by simp [enumL])
  | cons a as ih =>
    simp only [enumL, List.mem_cons] at h
    rcases h with rfl | h
    · exact List.mem_cons_self _ _
    · exact List.mem_cons_of_mem _ (ih h)

/-- An indexed lookup with default is a member or the default. -/
theorem getD_mem_or (l : List α) (k : Nat) (d : α) :
    l.getD k d ∈ l ∨ l.getD k d = d := by
  induction l generalizing k with
  | nil => exact Or.inr rfl
  | cons a as ih =>
    cases k with
    | zero => exact Or.inl (by simp)
    | succ k =>
      rw [List.getD_cons_succ]
      rcases ih k with h | h
      · exact Or.inl (List.mem_cons_of_mem _ h)
      · exact Or.inr h

/-- Characters of any kept phone number come from its line. -/
theorem keptPhones_chars (l : Line) :
    ∀ p ∈ keptPhones l, ∀ c ∈ (p.2 : String).data, c ∈ l := by
  intro p hp c hc
  simp only [keptPhones, List.mem_filterMap] at hp
  obtain ⟨m, _, heq⟩ := hp
  split at heq
  · exact absurd heq (by simp)
  · cases heq
    exact slice_subset l m.1 m.2 c (pyStrip_subset _ _ hc)

/-- Any property of all kept phones of all scanned lines (and of the seed
accumulator) holds of every collected phone. -/
theorem phoneScan_found_prop (P : PType × String → Prop)
    (els : List (Nat × Line)) (found : List (PType × String)) (u : List Nat)
    (hf : ∀ p ∈ found, P p)
    (hl : ∀ il ∈ els, ∀ p ∈ keptPhones il.2, P p) :
    ∀ p ∈ (phoneScan els found u).1, P p := by
  induction els generalizing found u with
  | nil => exact hf
  | cons il rest ih =>
    obtain ⟨i, l⟩ := il
    by_cases hk : (keptPhones l).isEmpty
    · simp only [phoneScan, if_pos hk]
      exact ih found u hf (fun m hm => hl m (List.mem_cons_of_mem _ hm))
    · simp only [phoneScan, if_neg hk]
      refine ih _ _ ?_ (fun m hm => hl m (List.mem_cons_of_mem _ hm))
      intro p hp
      rcases List.mem_append.mp hp with h | h
      · exact hf p h
      · exact hl (i, l) (List.mem_cons_self _ _) p h

/-- The typed-distribution fold leaves the mobile field alone or sets it to
one of the collected numbers. -/
theorem phoneFold_mobile_opt (found : List (PType × String))
    (d : ContactData) :
    (found.foldl phoneFoldStep d).mobilePhone = d.mobilePhone ∨
    ∃ p ∈ found, (found.foldl phoneFoldStep d).mobilePhone = p.2 := by
  induction found generalizing d with
  | nil => exact Or.inl rfl
  | cons p rest ih =>
    rw [List.foldl_cons]
    have step : ∀ d' : ContactData, phoneFoldStep d' p = d' ∨
        phoneFoldStep d' p = { d' with mobilePhone := p.2 } ∨
        phoneFoldStep d' p = { d' with businessPhone := p.2 } := by
      intro d'
      cases hp : p.1 <;> simp [phoneFoldStep, hp]
    rcases step d with hs | hs | hs <;> rw [hs] <;>
      [skip; skip; skip] <;>
      rcases ih _ with h | ⟨q, hq, he⟩
    · exact Or.inl h
    · exact Or.inr ⟨q, List.mem_cons_of_mem _ hq, he⟩
    · exact Or.inr ⟨p, List.mem_cons_self _ _, by simpa using h⟩
    · exact Or.inr ⟨q, List.mem_cons_of_mem _ hq, he⟩
    · exact Or.inl (by simpa using h)
    · exact Or.inr ⟨q, List.mem_cons_of_mem _ hq, he⟩

/-- The typed-distribution fold leaves the business field alone or sets it
to one of the collected numbers. -/
theorem phoneFold_business_opt (found : List (PType × String))
    (d : ContactData) :
    (found.foldl phoneFoldStep d).businessPhone = d.businessPhone ∨
    ∃ p ∈ found, (found.foldl phoneFoldStep d).businessPhone = p.2 := by
  induction found generalizing d with
  | nil => exact Or.inl rfl
  | cons p rest ih =>
    rw [List.foldl_cons]
    have step : ∀ d' : ContactData, phoneFoldStep d' p = d' ∨
        phoneFoldStep d' p = { d' with mobilePhone := p.2 } ∨
        phoneFoldStep d' p = { d' with businessPhone := p.2 } := by
      intro d'
      cases hp : p.1 <;> simp [phoneFoldStep, hp]
    rcases step d with hs | hs | hs <;> rw [hs] <;>
      [skip; skip; skip] <;>
      rcases ih _ with h | ⟨q, hq, he⟩
    · exact Or.inl h
    · exact Or.inr ⟨q, List.mem_cons_of_mem _ hq, he⟩
    · exact Or.inl (by simpa using h)
    · exact Or.inr ⟨q, List.mem_cons_of_mem _ hq, he⟩
    · exact Or.inr ⟨p, List.mem_cons_self _ _, by simpa using h⟩
    · exact Or.inr ⟨q, List.mem_cons_of_mem _ hq, he⟩

/-- The first unknown-context number, when one exists, comes from `found`. -/
theorem unknowns_head_mem (found : List (PType × String)) (v : String)
    (vs : List String)
    (h : ((found.filter (fun p => p.1 = PType.unknown)).map
      (fun p => p.2)) = v :: vs) :
    ∃ p ∈ found, v = p.2 := by
  have hv : v ∈ (found.filter (fun p => p.1 = PType.unknown)).map
      (fun p => p.2) := by
    rw [h]
    exact List.mem_cons_self _ _
  obtain ⟨p, hp, he⟩ := List.mem_map.mp hv
  exact ⟨p, List.mem_of_mem_filter hp, he.symm⟩

/-- Phone assignment leaves the mobile field alone or sets it to one of the
collected numbers. -/
theorem assignPhones_mobile_opt (found : List (PType × String))
    (d : ContactData) :
    (assignPhones found d).mobilePhone = d.mobilePhone ∨
    ∃ p ∈ found, (assignPhones found d).mobilePhone = p.2 := by
  rcases found with _ | ⟨p, _ | ⟨q, rest⟩⟩
  · exact Or.inl rfl
  · exact Or.inr ⟨p, List.mem_cons_self _ _, rfl⟩
  · simp only [assignPhones]
    split
    · exact phoneFold_mobile_opt _ d
    · next v vs heq =>
      split
      · obtain ⟨r, hr, he⟩ := unknowns_head_mem _ _ _ heq
        exact Or.inr ⟨r, hr, he⟩
      · split
        · exact phoneFold_mobile_opt _ d
        · exact phoneFold_mobile_opt _ d

/-- Phone assignment leaves the business field alone or sets it to one of
the collected numbers. -/
theorem assignPhones_business_opt (found : List (PType × String))
    (d : ContactData) :
    (assignPhones found d).businessPhone = d.businessPhone ∨
    ∃ p ∈ found, (assignPhones found d).businessPhone = p.2 := by
  rcases found with _ | ⟨p, _ | ⟨q, rest⟩⟩
  · exact Or.inl rfl
  · exact Or.inl rfl
  · simp only [assignPhones]
    split
    · exact phoneFold_business_opt _ d
    · next v vs heq =>
      split
      · exact phoneFold_business_opt _ d
      · split
        · obtain ⟨r, hr, he⟩ := unknowns_head_mem _ _ _ heq
          exact Or.inr ⟨r, hr, he⟩
        · exact phoneFold_business_opt _ d

/-- The address pass returns nothing, one scanned line, or a previous line
followed by a scanned line. -/
theorem addrPass_cases (lines : List Line) (els : List (Nat × Line))
    (u : List Nat) :
    (addrPass lines els u).1 = [] ∨
    (∃ il ∈ els, (addrPass lines els u).1 = [il.2]) ∨
    (∃ il ∈ els, (addrPass lines els u).1 =
      [lines.getD (il.1 - 1) [], il.2]) := by
  induction els generalizing u with
  | nil => exact Or.inl rfl
  | cons il rest ih =>
    obtain ⟨i, l⟩ := il
    simp only [addrPass]
    split
    · rcases ih u with h | ⟨jl, hm, he⟩ | ⟨jl, hm, he⟩
      · exact Or.inl h
      · exact Or.inr (Or.inl ⟨jl, List.mem_cons_of_mem _ hm, he⟩)
      · exact Or.inr (Or.inr ⟨jl, List.mem_cons_of_mem _ hm, he⟩)
    · split
      · split
        · exact Or.inr (Or.inr ⟨(i, l), List.mem_cons_self _ _, rfl⟩)
        · exact Or.inr (Or.inl ⟨(i, l), List.mem_cons_self _ _, rfl⟩)
      · split
        · exact Or.inr (Or.inl ⟨(i, l), List.mem_cons_self _ _, rfl⟩)
        · rcases ih u with h | ⟨jl, hm, he⟩ | ⟨jl, hm, he⟩
          · exact Or.inl h
          · exact Or.inr (Or.inl ⟨jl, List.mem_cons_of_mem _ hm, he⟩)
          · exact Or.inr (Or.inr ⟨jl, List.mem_cons_of_mem _ hm, he⟩)

/-- The last element reported by `getLast?` is a member. -/
theorem mem_of_getLastQ (l : List α) (e : α) (h : l.getLast? = some e) :
    e ∈ l := by
  induction l with
  | nil => simp at h
  | cons a as ih =>
    cases as with
    | nil =>
      simp only [List.getLast?_singleton, Option.some.injEq] at h
      subst h
      exact List.mem_cons_self _ _
    | cons b bs =>
      rw [List.getLast?_cons_cons] at h
      exact List.mem_cons_of_mem _ (ih h)

/-- Joining one line with newlines is that line. -/
theorem intercalate_one (s x : Line) : List.intercalate s [x] = x := by
  simp [List.intercalate]

/-- Joining two lines with a separator. -/
theorem intercalate_two (s x y : Line) :
    List.intercalate s [x, y] = x ++ (s ++ y) := by
  simp [List.intercalate]

/-- Claim C9: run on the all-empty record, the extractor yields a single
newline-free value in each of the e-mail and two phone fields, and an
address that is a block of at most two newline-joined lines (at most one
newline character). -/
theorem extractor_single_values (text : String) :
    countNl (heuristic_parse text emptyContact).emailAddress = 0 ∧
    countNl (heuristic_parse text emptyContact).mobilePhone = 0 ∧
    countNl (heuristic_parse text emptyContact).businessPhone = 0 ∧
    countNl (heuristic_parse text emptyContact).address ≤ 1 := by
  have hL := linesOf_no_nl text
  have hkept : ∀ il ∈ enumL 0 (linesOf text), ∀ q ∈ keptPhones il.2,
      countNl q.2 = 0 := by
    intro il hil q hq
    simp only [countNl]
    refine List.count_eq_zero.mpr ?_
    intro hmem
    exact hL il.2 (enumL_mem_snd hil) (keptPhones_chars il.2 q hq '\n' hmem)
  refine ⟨?_, ?_, ?_, ?_⟩
  · -- e-mail
    simp only [heuristic_parse]
    rw [ite_update_address, ite_update_company]
    simp only [namePass_emailAddress, companyPass_emailAddress,
      titlePass_emailAddress, assignPhones_emailAddress]
    rw [emailPass_value (linesOf text) 0 emptyContact [] (by simp)]
    have hall : ∀ s ∈ (linesOf text).filterMap lineEmail, countNl s = 0 := by
      intro s hs
      obtain ⟨l, hl, he⟩ := List.mem_filterMap.mp hs
      unfold lineEmail at he
      cases hfa : reFindall emailRE l with
      | nil => rw [hfa] at he; exact absurd he (by simp)
      | cons e es =>
        rw [hfa] at he
        obtain rfl : strOf e = s := by simpa using he
        simp only [countNl, strOf]
        refine List.count_eq_zero.mpr ?_
        intro hmem
        refine hL l hl (reFindall_subset emailRE l e ?_ '\n' hmem)
        rw [hfa]
        exact List.mem_cons_self _ _
    cases hgl : ((linesOf text).filterMap lineEmail).getLast? with
    | none => simp [emptyContact, countNl]
    | some e =>
      simp only [Option.getD_some]
      exact hall e (mem_of_getLastQ _ _ hgl)
  · -- mobile phone
    simp only [heuristic_parse]
    rw [ite_update_address, ite_update_company]
    simp only [namePass_mobilePhone, companyPass_mobilePhone,
      titlePass_mobilePhone]
    rcases assignPhones_mobile_opt
        ((phoneScan (enumL 0 (linesOf text)) []
          (emailPass (enumL 0 (linesOf text)) emptyContact []).2).1)
        ((emailPass (enumL 0 (linesOf text)) emptyContact []).1) with
      h | ⟨p, hp, he⟩
    · rw [h, emailPass_mobilePhone]
      rfl
    · rw [he]
      exact phoneScan_found_prop (fun p => countNl p.2 = 0) _ _ _
        (by simp) hkept p hp
  · -- business phone
    simp only [heuristic_parse]
    rw [ite_update_address, ite_update_company]
    simp only [namePass_businessPhone, companyPass_businessPhone,
      titlePass_businessPhone]
    rcases assignPhones_business_opt
        ((phoneScan (enumL 0 (linesOf text)) []
          (emailPass (enumL 0 (linesOf text)) emptyContact []).2).1)
        ((emailPass (enumL 0 (linesOf text)) emptyContact []).1) with
      h | ⟨p, hp, he⟩
    · rw [h, emailPass_businessPhone]
      rfl
    · rw [he]
      exact phoneScan_found_prop (fun p => countNl p.2 = 0) _ _ _
        (by simp) hkept p hp
  · -- address
    simp only [heuristic_parse]
    rw [ite_update_address, ite_update_company]
    simp only [namePass_address, companyPass_address, titlePass_address]
    rcases addrPass_cases (linesOf text) (enumL 0 (linesOf text))
        ((urlPass (enumL 0 (linesOf text)) ""
          (phoneScan (enumL 0 (linesOf text)) []
            (emailPass (enumL 0 (linesOf text)) emptyContact []).2).2).2) with
      h | ⟨il, hm, he⟩ | ⟨il, hm, he⟩
    · rw [h]
      simp [assignPhones_address, emailPass_address, emptyContact, countNl]
    · rw [he]
      simp only [List.isEmpty_cons, Bool.false_eq_true, if_false,
        intercalate_one]
      show List.count '\n' il.2 ≤ 1
      rw [List.count_eq_zero.mpr (hL il.2 (enumL_mem_snd hm))]
      simp
    · rw [he]
      have h1 : '\n' ∉ (linesOf text).getD (il.1 - 1) [] := by
        rcases getD_mem_or (linesOf text) (il.1 - 1) ([] : Line) with
          hmem | hnil
        · exact hL _ hmem
        · rw [hnil]
          simp
      have h2 : '\n' ∉ il.2 := hL il.2 (enumL_mem_snd hm)
      simp only [List.isEmpty_cons, Bool.false_eq_true, if_false,
        intercalate_two]
      show List.count '\n'
        ((linesOf text).getD (il.1 - 1) [] ++ (['\n'] ++ il.2)) ≤ 1
      rw [List.count_append, List.count_append,
        List.count_eq_zero.mpr h1, List.count_eq_zero.mpr h2]
      simp

/-- Indices in an enumeration from `n` are at least `n`. -/
theorem enumL_mem_ge {il : Nat × α} {n : Nat} {ls : List α}
    (h : il ∈ enumL n ls) : n ≤ il.1 := by
  induction ls generalizing n with
  | nil => exact absurd h (by simp [enumL])
  | cons a as ih =>
    simp only [enumL, List.mem_cons] at h
    rcases h with rfl | h
    · exact le_refl n
    · exact Nat.le_of_succ_le (ih h)

/-- The address pass takes the first unused line hitting either of its two
checks; when that line is a keyword+digit hit (and not a ZIP hit), the
collected address is that line alone — even if later lines contain a ZIP. -/
theorem addrPass_first_kw (lines ls : List Line) (n : Nat) (u : List Nat)
    (i : Nat) (l : Line) (hmem : (i, l) ∈ enumL n ls) (hu : i ∉ u)
    (hz : ¬ (reSearch zipRE l).isSome = true) (hk : addrKwHit l = true)
    (hfirst : ∀ j m, (j, m) ∈ enumL n ls → j < i → j ∉ u →
      ¬ ((reSearch zipRE m).isSome = true ∨ addrKwHit m = true)) :
    (addrPass lines (enumL n ls) u).1 = [l] := by
  induction ls generalizing n u with
  | nil => exact absurd hmem (by simp [enumL])
  | cons l0 rest ih =>
    simp only [enumL, List.mem_cons] at hmem
    rcases hmem with heq | hmem'
    · injection heq with h1 h2
      subst h1
      subst h2
      simp only [enumL, addrPass, if_neg hu]
      rw [if_neg hz, if_pos hk]
    · have hi_ge : n + 1 ≤ i := enumL_mem_ge hmem'
      by_cases hnu : n ∈ u
      · simp only [enumL, addrPass, if_pos hnu]
        exact ih (n + 1) u hmem' hu
          (fun j m hjm hji hju => hfirst j m (List.mem_cons_of_mem _ hjm)
            hji hju)
      · have hno := hfirst n l0 (List.mem_cons_self _ _)
          (Nat.lt_of_lt_of_le (Nat.lt_succ_self n) hi_ge) hnu
        push_neg at hno
        simp only [enumL, addrPass, if_neg hnu]
        rw [if_neg (by simpa using hno.1), if_neg (by simpa using hno.2)]
        exact ih (n + 1) u hmem' hu
          (fun j m hjm hji hju => hfirst j m (List.mem_cons_of_mem _ hjm)
            hji hju)

/-- Amended C5: the address pass scans unused lines in order, testing each
line first for a ZIP match and then for the keyword+digit fallback, and
stops at the first line where either succeeds; hence when the first unused
hit is a keyword+digit line that is not a ZIP line, the address is that
line alone — even when a later line contains a ZIP match. -/
theorem addr_fallback_first_hit (text : String) (i : Nat) (l : Line)
    (hmem : (i, l) ∈ enumL 0 (linesOf text)) (hu : i ∉ usedB4Addr text)
    (hz : ¬ (reSearch zipRE l).isSome = true) (hk : addrKwHit l = true)
    (hfirst : ∀ j m, (j, m) ∈ enumL 0 (linesOf text) → j < i →
      j ∉ usedB4Addr text →
      ¬ ((reSearch zipRE m).isSome = true ∨ addrKwHit m = true)) :
    (heuristic_parse text emptyContact).address = strOf l := by
  simp only [heuristic_parse]
  rw [ite_update_address, ite_update_company]
  simp only [namePass_address, companyPass_address, titlePass_address]
  rw [show (urlPass (enumL 0 (linesOf text)) ""
      (phoneScan (enumL 0 (linesOf text)) []
        (emailPass (enumL 0 (linesOf text)) emptyContact []).2).2).2 =
    usedB4Addr text from rfl]
  rw [addrPass_first_kw (linesOf text) (linesOf text) 0 (usedB4Addr text)
    i l hmem hu hz hk hfirst]
  simp only [List.isEmpty_cons, Bool.false_eq_true, if_false,
    intercalate_one]

/-- Counterexample to C5 as stated: in
`"123 Main St\nSpringfield, IL 62701"` an unused line (the second) matches
the ZIP pattern, yet the address is produced by the keyword+digit fallback
from the first line alone, so the fallback is not reserved for texts with
no ZIP match and the address is not built from the ZIP line. -/
theorem addr_fallback_counterexample :
    (∃ il ∈ enumL 0 (linesOf "123 Main St\nSpringfield, IL 62701"),
      (reSearch zipRE il.2).isSome = true ∧
      il.1 ∉ usedB4Addr "123 Main St\nSpringfield, IL 62701") ∧
    (heuristic_parse "123 Main St\nSpringfield, IL 62701"
      emptyContact).address = "123 Main St" := by
  constructor
  · decide
  · decide

/-- Witness for the amended C5 at the same text: the first unused hit is
the keyword+digit line `"123 Main St"`, which becomes the whole address. -/
theorem addr_fallback_witness :
    (heuristic_parse "123 Main St\nSpringfield, IL 62701"
      emptyContact).address = "123 Main St" :=
  addr_fallback_first_hit "123 Main St\nSpringfield, IL 62701" 0
    ("123 Main St".data) (by decide) (by decide) (by decide) (by decide)
    (fun j m _ hj _ => absurd hj (Nat.not_lt_zero j))

/-- Counterexample to C3 as stated: on the spec §8 scenario text the
extractor does not return `mobile_phone = "(555) 123-4567"` (the number's
exchange `123` is rejected by `phone_re`, which requires `[2-9]` first) and
does not return the two-line address (the line `"123 Main St"` is consumed
by the keyword+digit branch before the ZIP line is reached). -/
theorem c3_counterexample :
    (heuristic_parse c3text emptyContact).mobilePhone ≠ "(555) 123-4567" ∧
    (heuristic_parse c3text emptyContact).address ≠
      "123 Main St\nSpringfield, IL 62701" := by
  decide

/-- Amended C3: on the spec §8 scenario text the extractor returns
first/last name, job title, company and e-mail as expected, but leaves both
phone fields empty and sets the address to `"123 Main St"` alone. -/
theorem c3_actual_output :
    heuristic_parse c3text emptyContact =
      { emptyContact with
        firstName := "Jane"
        lastName := "Doe"
        company := "Acme Corp"
        jobTitle := "Senior Engineer"
        emailAddress := "jane.doe@acme.com"
        address := "123 Main St" } := by
  decide

/-- Witness for the amended C7 at the same two-unknown-numbers text. -/
theorem unknown_backfill_witness :
    foundPhones "234-5678\n345-6789" =
      [(PType.unknown, "234-5678"), (PType.unknown, "345-6789")] ∧
    (heuristic_parse "234-5678\n345-6789" emptyContact).mobilePhone =
      "234-5678" ∧
    (heuristic_parse "234-5678\n345-6789" emptyContact).businessPhone = "" :=
  ⟨by decide, unknown_backfill_single "234-5678\n345-6789" "234-5678"
    "345-6789" (by decide)⟩

/-- Claim C8: the extractor is total — on the empty text it returns the
input record unchanged (for the all-empty record, an all-empty result), and
on every text it returns a well-formed `ContactData` record (every field
present, a string or a sequence). -/
theorem heuristic_parse_total :
    (∀ d : ContactData, heuristic_parse "" d = d) ∧
    ∀ (text : String) (d : ContactData),
      ∃ r : ContactData, heuristic_parse text d = r := by
  constructor
  · intro d
    simp [heuristic_parse, linesOf_empty, enumL, emailPass, phoneScan,
      assignPhones, urlPass, addrPass, titlePass, companyPass, namePass]
  · exact fun text d => ⟨heuristic_parse text d, rfl⟩

end Rolodex

